import Mathlib

/-!
Verification of the `multistep` package (a macro-step / frame-stacking
environment wrapper) against its natural-language specification.

The embedding follows the three source files:
* `multistep/space_utils.py` — `repeated_box`, `repeated_space`, `stack_last`;
* `multistep/buffers.py` — the `StepBuffers` accumulator and its `reduce`;
* `multistep/wrapper.py` — the `MultiStep` wrapper (`reset`, `step`,
  the `observation_space` / `action_space` properties and `_stack_obs`).

Python floats are modelled as rationals, numpy arrays as shape plus
row-major flattened data, `collections.deque` with `maxlen = m` as a list
with an evicting append, and raising code as `Except`-valued functions.
-/

namespace Multistep

/-- The Python exceptions that the sources can raise.  `assertionError` is the
failed `assert len(action) == self.n_action` (wrapper.py 124, the spec's
`ActionCountMismatch`); `valueError` is raised by `StepBuffers.reduce` for an
unsupported aggregation name and by `np.max` / `np.min` on an empty sequence;
`typeError` is raised when a `collections.deque` is sliced; `nameError` is
raised when an undefined name is evaluated. -/
inductive PyErr where
  | assertionError
  | valueError
  | typeError
  | nameError
deriving DecidableEq, Repr

/-- Element dtypes of numpy arrays that appear in the sources. -/
inductive Dtype where
  | uint8
  | float32
  | float64
  | int64
deriving DecidableEq, Repr

/-- A numpy array: its shape and its row-major flattened data. -/
structure NdArray where
  shape : List Nat
  data : List ℚ
deriving DecidableEq, Repr

/-- `a[None, ...]`: a view of `a` with a new leading axis of size 1. -/
def NdArray.unsqueeze0 (a : NdArray) : NdArray :=
  { shape := 1 :: a.shape, data := a.data }

/-- `np.repeat(a, n, axis=0)`: each axis-0 slice of `a` is repeated `n`
consecutive times.  For an array of shape `d :: rest` each slice is a
contiguous block of `rest.prod` scalars of the flattened data. -/
def NdArray.repeat0 (a : NdArray) (n : Nat) : NdArray :=
  match a.shape with
  | [] => a
  | d :: rest =>
    let s := rest.prod
    { shape := d * n :: rest,
      data := ((List.range d).map
        (fun i => (List.replicate n ((a.data.drop (i * s)).take s)).flatten)).flatten }

/-- `gymnasium.spaces.Box`: a bounded numeric-array space (the spec's Leaf).
`low` and `high` are the elementwise bound arrays, `dtype` the element type. -/
structure Box where
  low : NdArray
  high : NdArray
  dtype : Dtype
deriving DecidableEq, Repr

/-- The space kinds `repeated_space` distinguishes: `spaces.Box` leaves,
`spaces.Dict` mappings (insertion-ordered), and any other kind. -/
inductive Space where
  | box (b : Box)
  | dict (items : List (String × Space))
  | other (kind : String)

/-- `repeated_box(box, n)` (space_utils.py 5-27): tile a box along a new
leading axis.  `rep = np.repeat(box.low[None, ...], n, axis=0)`, same for
`high`, and the resulting `spaces.Box` is constructed with `dtype=np.uint8`
regardless of the input dtype. -/
def repeated_box (box : Box) (n : Nat) : Box :=
  { low := box.low.unsqueeze0.repeat0 n,
    high := box.high.unsqueeze0.repeat0 n,
    dtype := Dtype.uint8 }

mutual

/-- `repeated_space(space, n)` (space_utils.py 29-50): `repeated_box` on a
`Box`, recursion through the values of a `Dict`, and
`TypeError(f"Unsupported space ...")` on anything else. -/
def repeated_space : Space → Nat → Except PyErr Space
  | Space.box b, n => Except.ok (Space.box (repeated_box b n))
  | Space.dict items, n => (repeatedItems items n).map Space.dict
  | Space.other _, _ => Except.error PyErr.typeError

/-- The dict comprehension `{k: repeated_space(v, n) for k, v in space.items()}`,
propagating the first error. -/
def repeatedItems : List (String × Space) → Nat → Except PyErr (List (String × Space))
  | [], _ => Except.ok []
  | (k, v) :: rest, n => do
    let v' ← repeated_space v n
    let rest' ← repeatedItems rest n
    Except.ok ((k, v') :: rest')

end

/-- `stack_last(arr, n)` (space_utils.py 52-77) for a plain Python list `arr`.
`pad = max(0, n - len(arr))`; `core = np.stack(arr[-n:], axis=0)` — note that
`arr[-0:]` is the whole list, and `np.stack` raises on an empty input, which
is modelled as `none`; when `pad` is nonzero, `pad` copies of `core[:1]` (the
first frame of the core) are prepended.  The result array of shape
`(n,) + frame.shape` is modelled as the list of its `n` leading-axis frames. -/
def stack_last {α : Type} (arr : List α) (n : Nat) : Option (List α) :=
  let core := if n = 0 then arr else arr.drop (arr.length - n)
  match core with
  | [] => none
  | c :: cs => some (List.replicate (n - arr.length) c ++ c :: cs)

/-- `deque(maxlen := m).append(x)`: append on the right, evicting from the
left whenever the length would exceed `m`. -/
def dequeAppend {α : Type} (m : Nat) (xs : List α) (x : α) : List α :=
  if m < (xs ++ [x]).length then (xs ++ [x]).drop ((xs ++ [x]).length - m) else xs ++ [x]

/-- `np.max` on a float list: `None` on the empty list (numpy raises
`ValueError`), otherwise the left fold keeping the larger value. -/
def npMax : List ℚ → Option ℚ
  | [] => none
  | x :: xs => some (xs.foldl (fun a c => if a ≤ c then c else a) x)

/-- `np.min` on a float list, `None` on the empty list. -/
def npMin : List ℚ → Option ℚ
  | [] => none
  | x :: xs => some (xs.foldl (fun a c => if c ≤ a then c else a) x)

/-- `np.sum` on a float list (`0` on the empty list, as in numpy). -/
def npSum (l : List ℚ) : ℚ := l.foldl (· + ·) 0

/-- `np.mean` on a float list: sum divided by length.  On the empty list numpy
produces NaN, which has no rational counterpart; it is modelled as `none`
(the spec declares the empty case undefined and no claim reaches it). -/
def npMean : List ℚ → Option ℚ
  | [] => none
  | x :: xs => some (npSum (x :: xs) / ((x :: xs).length : ℚ))

/-- `StepBuffers` (buffers.py 5-15): `obs` is a `deque(maxlen=n_obs+1)`,
`rewards` and `dones` are plain lists, `infos` maps field names to
`deque(maxlen=n_obs+1)` windows, in insertion order. -/
structure StepBuffers (ο ι : Type) where
  n_obs : Nat
  obs : List ο
  rewards : List ℚ
  dones : List Bool
  infos : List (String × List ι)
deriving DecidableEq, Repr

/-- `StepBuffers(n_obs)`: the freshly constructed buffer (empty deque, empty
lists, empty info dict). -/
def StepBuffers.new {ο ι : Type} (n : Nat) : StepBuffers ο ι :=
  { n_obs := n, obs := [], rewards := [], dones := [], infos := [] }

/-- `add_obs` (buffers.py 17-19): append one observation frame to the bounded
window. -/
def StepBuffers.add_obs {ο ι : Type} (b : StepBuffers ο ι) (o : ο) : StepBuffers ο ι :=
  { b with obs := dequeAppend (b.n_obs + 1) b.obs o }

/-- `add_reward` (buffers.py 21-23): append one scalar reward. -/
def StepBuffers.add_reward {ο ι : Type} (b : StepBuffers ο ι) (r : ℚ) : StepBuffers ο ι :=
  { b with rewards := b.rewards ++ [r] }

/-- `add_done` (buffers.py 25-27): append one boolean done flag. -/
def StepBuffers.add_done {ο ι : Type} (b : StepBuffers ο ι) (d : Bool) : StepBuffers ο ι :=
  { b with dones := b.dones ++ [d] }

/-- One `self.infos.setdefault(k, deque(maxlen=n_obs+1)).append(v)`
(buffers.py 32): append to the existing window of `k`, or create a fresh
window holding `v`, inserted at the end (Python dict insertion order). -/
def StepBuffers.addInfoField {ο ι : Type} (b : StepBuffers ο ι) (k : String) (v : ι) :
    StepBuffers ο ι :=
  if (b.infos.map Prod.fst).contains k then
    { b with infos :=
        b.infos.map (fun kv => if kv.1 = k then (kv.1, dequeAppend (b.n_obs + 1) kv.2 v) else kv) }
  else
    { b with infos := b.infos ++ [(k, dequeAppend (b.n_obs + 1) [] v)] }

/-- `add_info` (buffers.py 29-32): iterate the items of the info dict in
order, appending each value to its field's bounded window. -/
def StepBuffers.add_info {ο ι : Type} (b : StepBuffers ο ι) (info : List (String × ι)) :
    StepBuffers ο ι :=
  info.foldl (fun b kv => b.addInfoField kv.1 kv.2) b

/-- The aggregation names accepted by `StepBuffers.reduce` (the keys of
`agg_fn_map`, buffers.py 49-54). -/
def validAgg (agg : String) : Prop :=
  agg = "max" ∨ agg = "min" ∨ agg = "mean" ∨ agg = "sum"

instance : DecidablePred validAgg := fun _ => by unfold validAgg; infer_instance

/-- `StepBuffers.reduce` (buffers.py 34-59): an unsupported aggregation name
raises `ValueError`; otherwise `reward = float(agg_fn(self.rewards))` (numpy
raises on an empty sequence for `max`/`min`; `mean` of the empty list is
undefined) and `done = bool(np.max(self.dones))`, which on a non-empty
boolean list is the logical OR and raises on the empty list. -/
def StepBuffers.reduce {ο ι : Type} (b : StepBuffers ο ι) (agg : String) :
    Except PyErr (ℚ × Bool) :=
  if validAgg agg then
    let rOpt := if agg = "max" then npMax b.rewards
      else if agg = "min" then npMin b.rewards
      else if agg = "mean" then npMean b.rewards
      else some (npSum b.rewards)
    match rOpt with
    | none => Except.error PyErr.valueError
    | some r =>
      match b.dones with
      | [] => Except.error PyErr.valueError
      | d :: ds => Except.ok (r, (d :: ds).any id)
  else Except.error PyErr.valueError

/-! ## The `MultiStep` wrapper (wrapper.py) -/

/-- One result of the wrapped environment's `step(action)`:
`(observation, reward, terminated, truncated, info)`. -/
structure EnvStep (ο ι : Type) where
  obs : ο
  rew : ℚ
  terminated : Bool
  truncated : Bool
  info : List (String × ι)

/-- The wrapped environment (an external collaborator), modelled as
deterministic functions on an abstract environment state `σ`:
`reset() -> observation` and
`step(action) -> (observation, reward, terminated, truncated, info)`. -/
structure Env (σ α ο ι : Type) where
  reset : σ → σ × ο
  step : σ → α → σ × EnvStep ο ι

/-- The construction parameters of `MultiStep.__init__` (wrapper.py 13-48).
`max_ep` is `max_episode_steps`; `none` models Python `None` (and Python's
`if self.max_ep` is also falsy for `some 0`). -/
structure Cfg where
  n_obs : Nat := 4
  n_action : Nat := 2
  reward_reduce : String := "max"
  max_ep : Option Nat := none

/-- The stacked spaces stored by `__init__` (wrapper.py 46-47):
`self._obs_space` and `self._act_space`. -/
structure MultiStepSpaces where
  obs_space : Space
  act_space : Space

/-- Lines 46-47 of `__init__`: both `repeated_space` calls in order, each of
which can raise at construction time (the first failure propagates). -/
def mkSpaces (env_obs env_act : Space) (n_obs n_action : Nat) :
    Except PyErr MultiStepSpaces :=
  match repeated_space env_obs n_obs with
  | Except.error e => Except.error e
  | Except.ok o =>
    match repeated_space env_act n_action with
    | Except.error e => Except.error e
    | Except.ok a => Except.ok { obs_space := o, act_space := a }

/-- The `observation_space` property (wrapper.py 50-62): returns the stored
`self._obs_space`. -/
def MultiStep.observation_space (sp : MultiStepSpaces) : Except PyErr Space :=
  Except.ok sp.obs_space

/-- The `action_space` property (wrapper.py 64-76).  Its body is
`return self_act_space` — `self_act_space` (without a dot) is an undefined
name, so every read raises `NameError` instead of returning the stored
`self._act_space`. -/
def MultiStep.action_space (_sp : MultiStepSpaces) : Except PyErr Space :=
  Except.error PyErr.nameError

/-- `_stack_obs` (wrapper.py 142-145).  `self.buf.obs` is a
`collections.deque` (buffers.py 14), and `deque.__getitem__` accepts only
integer indices, so the slice `self.buf.obs[-self.n_obs:]` raises
`TypeError: sequence index must be integer, not slice` on every call; the
method never reaches `stack_last`. -/
def MultiStep.stack_obs {ο ι : Type} (_b : StepBuffers ο ι) : Except PyErr (List ο) :=
  Except.error PyErr.typeError

/-- The info comprehension of the `step` return (wrapper.py 139):
`{k: stack_last(v, self.n_obs) for k, v in self.buf.infos.items()}`.  Each
`v` is a `deque`, and `stack_last` begins by slicing `arr[-n:]`, so the first
item raises `TypeError`; an empty info dict yields `{}`. -/
def MultiStep.stack_infos {ο ι : Type} (b : StepBuffers ο ι) :
    Except PyErr (List (String × List ι)) :=
  match b.infos with
  | [] => Except.ok []
  | _ :: _ => Except.error PyErr.typeError

/-- The outcome of a `reset` call: the new environment state, the replaced
buffer (these mutations survive even though the call raises), and the value
of the `return` expression. -/
structure ResetOut (σ ο ι : Type) where
  s : σ
  buf : StepBuffers ο ι
  ret : Except PyErr (List ο)

/-- `reset` (wrapper.py 78-94): reset the wrapped environment, replace the
buffer by a fresh `StepBuffers(self.n_obs)`, append the initial observation,
and return `self._stack_obs()` (which raises, see `MultiStep.stack_obs`). -/
def MultiStep.reset {σ α ο ι : Type} (env : Env σ α ο ι) (cfg : Cfg) (s : σ) :
    ResetOut σ ο ι :=
  let p := env.reset s
  let b := (StepBuffers.new cfg.n_obs (ο := ο) (ι := ι)).add_obs p.2
  { s := p.1, buf := b, ret := MultiStep.stack_obs b }

/-- The buffer mutation of one inner step (wrapper.py 130-133): append
observation, reward, `terminated or truncated`, and info. -/
def bufStep {ο ι : Type} (b : StepBuffers ο ι) (p : EnvStep ο ι) : StepBuffers ο ι :=
  (((b.add_obs p.obs).add_reward p.rew).add_done (p.terminated || p.truncated)).add_info p.info

/-- The inner loop of `step` (wrapper.py 125-133): for each action in order,
stop if the last recorded done flag is true (`if self.buf.dones and
self.buf.dones[-1]: break`), otherwise perform one inner environment step
and run `bufStep`.  The returned `Nat` counts the inner environment
invocations. -/
def innerLoop {σ α ο ι : Type} (env : Env σ α ο ι) :
    σ → StepBuffers ο ι → List α → σ × StepBuffers ο ι × Nat
  | s, b, [] => (s, b, 0)
  | s, b, a :: rest =>
    if b.dones.getLast? = some true then (s, b, 0)
    else
      let p := env.step s a
      let q := innerLoop env p.1 (bufStep b p.2) rest
      (q.1, q.2.1, q.2.2 + 1)

/-- The outcome of one `step` call: final environment state and buffer, the
number of inner environment invocations, the `(r_red, d_red)` pair after the
episode-length adjustment (wrapper.py 135-137), and the value of the
`return` expression (wrapper.py 138-140). -/
structure StepOut (σ ο ι : Type) where
  s : σ
  buf : StepBuffers ο ι
  envCalls : Nat
  reduced : Except PyErr (ℚ × Bool)
  ret : Except PyErr (List ο × ℚ × Bool × List (String × List ι))

/-- `step` (wrapper.py 96-140): `assert len(action) == self.n_action`; run the
inner loop; `r_red, d_red = self.buf.reduce(self.reward_reduce)`;
`if self.max_ep and len(self.buf.rewards) >= self.max_ep: d_red = True`; then
return the 4-tuple, whose first component `self._stack_obs()` raises
`TypeError` (the deque slice). -/
def MultiStep.step {σ α ο ι : Type} (env : Env σ α ο ι) (cfg : Cfg) (s : σ)
    (b : StepBuffers ο ι) (action : List α) : StepOut σ ο ι :=
  if action.length = cfg.n_action then
    let t := innerLoop env s b action
    match t.2.1.reduce cfg.reward_reduce with
    | Except.error e =>
      { s := t.1, buf := t.2.1, envCalls := t.2.2,
        reduced := Except.error e, ret := Except.error e }
    | Except.ok rd =>
      let d : Bool := match cfg.max_ep with
        | some m => if 0 < m ∧ m ≤ t.2.1.rewards.length then true else rd.2
        | none => rd.2
      { s := t.1, buf := t.2.1, envCalls := t.2.2,
        reduced := Except.ok (rd.1, d),
        ret := (MultiStep.stack_obs t.2.1).bind fun o =>
          (MultiStep.stack_infos t.2.1).map fun si => (o, rd.1, d, si) }
  else
    { s := s, buf := b, envCalls := 0,
      reduced := Except.error PyErr.assertionError,
      ret := Except.error PyErr.assertionError }

/-- The state-transition of a `reset` call on wrapper state
(environment state, buffer). -/
def resetTrans {σ α ο ι : Type} (env : Env σ α ο ι) (cfg : Cfg)
    (st : σ × StepBuffers ο ι) : σ × StepBuffers ο ι :=
  let r := MultiStep.reset env cfg st.1
  (r.s, r.buf)

/-- The state-transition of a `step` call with action sequence `a` on wrapper
state (environment state, buffer). -/
def stepTrans {σ α ο ι : Type} (env : Env σ α ο ι) (cfg : Cfg) (a : List α)
    (st : σ × StepBuffers ο ι) : σ × StepBuffers ο ι :=
  let o := MultiStep.step env cfg st.1 st.2 a
  (o.s, o.buf)

/-- The wrapper states reachable by any sequence of `reset` and `step` calls
from a freshly constructed wrapper (whose `__init__` sets
`self.buf = StepBuffers(n_obs)`, wrapper.py 48). -/
inductive Reachable {σ α ο ι : Type} (env : Env σ α ο ι) (cfg : Cfg) :
    σ × StepBuffers ο ι → Prop
  | init (s : σ) : Reachable env cfg (s, StepBuffers.new cfg.n_obs)
  | reset {st} : Reachable env cfg st → Reachable env cfg (resetTrans env cfg st)
  | step {st} (a : List α) : Reachable env cfg st →
      Reachable env cfg (stepTrans env cfg a st)

/-! ## Specification-side predicates -/

/-- What "the chosen reduction applied to the full rewards sequence" means
for each of the four aggregation modes. -/
def aggProp (agg : String) (l : List ℚ) (r : ℚ) : Prop :=
  (agg = "max" → r ∈ l ∧ ∀ x ∈ l, x ≤ r) ∧
  (agg = "min" → r ∈ l ∧ ∀ x ∈ l, r ≤ x) ∧
  (agg = "mean" → r = l.sum / l.length) ∧
  (agg = "sum" → r = l.sum)

/-- The well-formedness invariant of `StepBuffers` stated by the spec: the
observation window and every info window hold at most `n_obs + 1` entries,
`rewards` and `dones` stay parallel, and a recorded `true` done flag is
always the last one (the loop stops right after recording it, so the flag
"latches"). -/
def BufWF {ο ι : Type} (b : StepBuffers ο ι) : Prop :=
  b.obs.length ≤ b.n_obs + 1 ∧
  (∀ kv ∈ b.infos, kv.2.length ≤ b.n_obs + 1) ∧
  b.rewards.length = b.dones.length ∧
  (true ∈ b.dones → b.dones.getLast? = some true)

/-! ## Concrete environments, configurations, and traces used as witnesses -/

/-- A wrapped environment that never terminates and always yields reward 1
(`EnvStep` fields: obs, rew, terminated, truncated, info). -/
def envNoTerm : Env Unit Unit Unit Unit where
  reset := fun s => (s, ())
  step := fun s _ => (s, ⟨(), 1, false, false, []⟩)

/-- A wrapped environment that reports `terminated = true` on every inner
step (so in particular on the first one). -/
def envTermFirst : Env Unit Unit Unit Unit where
  reset := fun s => (s, ())
  step := fun s _ => (s, ⟨(), 1, true, false, []⟩)

/-- A never-terminating wrapped environment that yields reward 5 on its first
inner step after reset and reward 1 afterwards (the state counts steps). -/
def envTwoRewards : Env Nat Unit Unit Unit where
  reset := fun _ => (0, ())
  step := fun s _ => (s + 1, ⟨(), if s = 0 then 5 else 1, false, false, []⟩)

/-- Wrapper configuration with one action per macro-step and `max` reduction. -/
def cfgC1 : Cfg := { n_obs := 4, n_action := 1, reward_reduce := "max", max_ep := none }

/-- Wrapper configuration with `max_episode_steps = 5`. -/
def cfgC3 : Cfg := { n_obs := 4, n_action := 1, reward_reduce := "max", max_ep := some 5 }

/-- Wrapper configuration with three actions per macro-step. -/
def cfgC7 : Cfg := { n_obs := 4, n_action := 3, reward_reduce := "max", max_ep := none }

/-- The wrapper state right after `reset` under `envNoTerm` / `cfgC1`. -/
def stR1 : Unit × StepBuffers Unit Unit :=
  resetTrans envNoTerm cfgC1 ((), StepBuffers.new cfgC1.n_obs)

/-- The wrapper state right after `reset` under `envNoTerm` / `cfgC3`. -/
def stR3 : Unit × StepBuffers Unit Unit :=
  resetTrans envNoTerm cfgC3 ((), StepBuffers.new cfgC3.n_obs)

/-- The wrapper state after `reset` followed by one macro-step under the
immediately-terminating environment: its buffer has recorded a true done. -/
def stL : Unit × StepBuffers Unit Unit :=
  stepTrans envTermFirst cfgC1 [()]
    (resetTrans envTermFirst cfgC1 ((), StepBuffers.new cfgC1.n_obs))

/-- The wrapper state after `reset` followed by one macro-step under
`envNoTerm` / `cfgC1`. -/
def stC9 : Unit × StepBuffers Unit Unit :=
  stepTrans envNoTerm cfgC1 [()]
    (resetTrans envNoTerm cfgC1 ((), StepBuffers.new cfgC1.n_obs))

/-- The first macro-step of the `envTwoRewards` trace (after reset). -/
def o1 : StepOut Nat Unit Unit :=
  MultiStep.step envTwoRewards cfgC1 (MultiStep.reset envTwoRewards cfgC1 0).s
    (MultiStep.reset envTwoRewards cfgC1 0).buf [()]

/-- The second macro-step of the `envTwoRewards` trace. -/
def o2 : StepOut Nat Unit Unit :=
  MultiStep.step envTwoRewards cfgC1 o1.s o1.buf [()]

/-- A buffer that has latched a true done flag (with one recorded reward). -/
def bLatched : StepBuffers Unit Unit :=
  { n_obs := 4, obs := [], rewards := [1], dones := [true], infos := [] }

/-- A buffer holding the rewards/dones of the first reduction example. -/
def bMax : StepBuffers Unit Unit :=
  { n_obs := 4, obs := [], rewards := [1, 3, 2], dones := [false, false, true], infos := [] }

/-- A buffer holding the rewards/dones of the second reduction example. -/
def bSum : StepBuffers Unit Unit :=
  { n_obs := 4, obs := [], rewards := [1, 3, 2], dones := [false, false, false], infos := [] }

/-- A concrete Leaf space of shape `(3,)`. -/
def box3 : Box :=
  { low := { shape := [3], data := [0, 0, 0] },
    high := { shape := [3], data := [1, 1, 1] },
    dtype := Dtype.float32 }

/-- The stored space pair of a wrapper built over `box3` with `n_obs = 4`,
`n_action = 2`. -/
def spC2 : MultiStepSpaces :=
  { obs_space := Space.box (repeated_box box3 4),
    act_space := Space.box (repeated_box box3 2) }

/-! ## Properties of the numpy reductions -/

/-- The left fold of `npMax` produces an element of `a :: xs`. -/
theorem foldlMax_mem (xs : List ℚ) (a : ℚ) :
    xs.foldl (fun a c => if a ≤ c then c else a) a ∈ a :: xs := by
  induction xs generalizing a with
  | nil => simp
  | cons x xs ih =>
    simp only [List.foldl_cons]
    rcases List.mem_cons.1 (ih (if a ≤ x then x else a)) with h | h
    · rw [h]
      by_cases hax : a ≤ x <;> simp [hax]
    · simp [h]

/-- The left fold of `npMax` bounds every element of `a :: xs` from above. -/
theorem foldlMax_le (xs : List ℚ) (a : ℚ) :
    ∀ y ∈ a :: xs, y ≤ xs.foldl (fun a c => if a ≤ c then c else a) a := by
  induction xs generalizing a with
  | nil => simp
  | cons x xs ih =>
    intro y hy
    simp only [List.foldl_cons]
    have hb : a ≤ (if a ≤ x then x else a) ∧ x ≤ (if a ≤ x then x else a) := by
      by_cases hax : a ≤ x <;> simp [hax] <;> linarith [le_of_not_le hax]
    have hself : (if a ≤ x then x else a) ≤
        xs.foldl (fun a c => if a ≤ c then c else a) (if a ≤ x then x else a) :=
      ih _ _ (List.mem_cons_self _ _)
    rcases List.mem_cons.1 hy with rfl | hy2
    · exact le_trans hb.1 hself
    · rcases List.mem_cons.1 hy2 with rfl | h3
      · exact le_trans hb.2 hself
      · exact ih _ _ (List.mem_cons_of_mem _ h3)

/-- The left fold of `npMin` produces an element of `a :: xs`. -/
theorem foldlMin_mem (xs : List ℚ) (a : ℚ) :
    xs.foldl (fun a c => if c ≤ a then c else a) a ∈ a :: xs := by
  induction xs generalizing a with
  | nil => simp
  | cons x xs ih =>
    simp only [List.foldl_cons]
    rcases List.mem_cons.1 (ih (if x ≤ a then x else a)) with h | h
    · rw [h]
      by_cases hax : x ≤ a <;> simp [hax]
    · simp [h]

/-- The left fold of `npMin` bounds every element of `a :: xs` from below. -/
theorem foldlMin_ge (xs : List ℚ) (a : ℚ) :
    ∀ y ∈ a :: xs, xs.foldl (fun a c => if c ≤ a then c else a) a ≤ y := by
  induction xs generalizing a with
  | nil => simp
  | cons x xs ih =>
    intro y hy
    simp only [List.foldl_cons]
    have hb : (if x ≤ a then x else a) ≤ a ∧ (if x ≤ a then x else a) ≤ x := by
      by_cases hax : x ≤ a <;> simp [hax] <;> linarith [le_of_not_le hax]
    have hself : xs.foldl (fun a c => if c ≤ a then c else a) (if x ≤ a then x else a) ≤
        (if x ≤ a then x else a) :=
      ih _ _ (List.mem_cons_self _ _)
    rcases List.mem_cons.1 hy with rfl | hy2
    · exact le_trans hself hb.1
    · rcases List.mem_cons.1 hy2 with rfl | h3
      · exact le_trans hself hb.2
      · exact ih _ _ (List.mem_cons_of_mem _ h3)

/-- The left fold of `npSum` started at `a` is `a` plus the list sum. -/
theorem foldl_add_eq (xs : List ℚ) (a : ℚ) : xs.foldl (· + ·) a = a + xs.sum := by
  induction xs generalizing a with
  | nil => simp
  | cons x xs ih => simp [List.foldl_cons, ih (a + x), add_assoc]

/-- `npSum` is the list sum. -/
theorem npSum_eq (l : List ℚ) : npSum l = l.sum := by
  simp [npSum, foldl_add_eq]

/-- `npMax` of a non-empty list is its greatest element. -/
theorem npMax_spec (l : List ℚ) (h : l ≠ []) :
    ∃ m, npMax l = some m ∧ m ∈ l ∧ ∀ x ∈ l, x ≤ m := by
  rcases List.exists_cons_of_ne_nil h with ⟨x, xs, rfl⟩
  exact ⟨_, rfl, foldlMax_mem xs x, foldlMax_le xs x⟩

/-- `npMin` of a non-empty list is its least element. -/
theorem npMin_spec (l : List ℚ) (h : l ≠ []) :
    ∃ m, npMin l = some m ∧ m ∈ l ∧ ∀ x ∈ l, m ≤ x := by
  rcases List.exists_cons_of_ne_nil h with ⟨x, xs, rfl⟩
  exact ⟨_, rfl, foldlMin_mem xs x, foldlMin_ge xs x⟩

/-- `npMean` of a non-empty list is its sum divided by its length. -/
theorem npMean_spec (l : List ℚ) (h : l ≠ []) :
    npMean l = some (l.sum / l.length) := by
  rcases List.exists_cons_of_ne_nil h with ⟨x, xs, rfl⟩
  simp [npMean, npSum_eq]

/-- `StepBuffers.reduce` on a supported mode with non-empty rewards and dones
succeeds, its boolean component is the logical OR of the dones, and its
scalar component is the chosen reduction of the full rewards list. -/
theorem reduce_ok {ο ι : Type} (b : StepBuffers ο ι) (agg : String)
    (hagg : validAgg agg) (hne : b.rewards ≠ []) (hd : b.dones ≠ []) :
    ∃ r, b.reduce agg = Except.ok (r, b.dones.any id) ∧ aggProp agg b.rewards r := by
  rcases List.exists_cons_of_ne_nil hd with ⟨d, ds, hds⟩
  rcases hagg with rfl | rfl | rfl | rfl
  · obtain ⟨m, hm, hmem, hle⟩ := npMax_spec b.rewards hne
    refine ⟨m, ?_, fun _ => ⟨hmem, hle⟩, fun h => absurd h (by decide),
      fun h => absurd h (by decide), fun h => absurd h (by decide)⟩
    simp +decide [StepBuffers.reduce, hm, hds]
  · obtain ⟨m, hm, hmem, hle⟩ := npMin_spec b.rewards hne
    refine ⟨m, ?_, fun h => absurd h (by decide), fun _ => ⟨hmem, hle⟩,
      fun h => absurd h (by decide), fun h => absurd h (by decide)⟩
    simp +decide [StepBuffers.reduce, hm, hds]
  · refine ⟨b.rewards.sum / b.rewards.length, ?_, fun h => absurd h (by decide),
      fun h => absurd h (by decide), fun _ => rfl, fun h => absurd h (by decide)⟩
    simp +decide [StepBuffers.reduce, npMean_spec b.rewards hne, hds]
  · refine ⟨b.rewards.sum, ?_, fun h => absurd h (by decide),
      fun h => absurd h (by decide), fun h => absurd h (by decide), fun _ => rfl⟩
    simp +decide [StepBuffers.reduce, npSum_eq, hds]

/-! ## Buffer invariants and loop lemmas -/

/-- An evicting append never leaves more than `m` elements. -/
theorem dequeAppend_length_le {α : Type} (m : Nat) (xs : List α) (x : α) :
    (dequeAppend m xs x).length ≤ m := by
  unfold dequeAppend
  split <;> simp_all <;> omega

/-- `addInfoField` changes only the `infos` field. -/
theorem addInfoField_proj {ο ι : Type} (b : StepBuffers ο ι) (k : String) (v : ι) :
    (b.addInfoField k v).n_obs = b.n_obs ∧ (b.addInfoField k v).obs = b.obs ∧
    (b.addInfoField k v).rewards = b.rewards ∧ (b.addInfoField k v).dones = b.dones := by
  unfold StepBuffers.addInfoField
  split <;> exact ⟨rfl, rfl, rfl, rfl⟩

/-- `addInfoField` keeps every info window within the `n_obs + 1` bound. -/
theorem addInfoField_bound {ο ι : Type} (b : StepBuffers ο ι) (k : String) (v : ι)
    (h : ∀ kv ∈ b.infos, kv.2.length ≤ b.n_obs + 1) :
    ∀ kv ∈ (b.addInfoField k v).infos, kv.2.length ≤ b.n_obs + 1 := by
  unfold StepBuffers.addInfoField
  split
  · intro kv hkv
    simp only [List.mem_map] at hkv
    obtain ⟨kv0, hkv0, rfl⟩ := hkv
    split
    · exact dequeAppend_length_le _ _ _
    · exact h kv0 hkv0
  · intro kv hkv
    rcases List.mem_append.1 hkv with hkv | hkv
    · exact h kv hkv
    · simp only [List.mem_singleton] at hkv
      subst hkv
      simpa using dequeAppend_length_le (b.n_obs + 1) ([] : List ι) v

/-- `add_info` changes only the `infos` field. -/
theorem add_info_proj {ο ι : Type} (info : List (String × ι)) (b : StepBuffers ο ι) :
    (b.add_info info).n_obs = b.n_obs ∧ (b.add_info info).obs = b.obs ∧
    (b.add_info info).rewards = b.rewards ∧ (b.add_info info).dones = b.dones := by
  induction info generalizing b with
  | nil => exact ⟨rfl, rfl, rfl, rfl⟩
  | cons kv rest ih =>
    have h1 := addInfoField_proj b kv.1 kv.2
    have h2 := ih (b.addInfoField kv.1 kv.2)
    simp only [StepBuffers.add_info, List.foldl_cons] at *
    exact ⟨h2.1.trans h1.1, h2.2.1.trans h1.2.1, h2.2.2.1.trans h1.2.2.1,
      h2.2.2.2.trans h1.2.2.2⟩

/-- `add_info` keeps every info window within the `n_obs + 1` bound. -/
theorem add_info_bound {ο ι : Type} (info : List (String × ι)) (b : StepBuffers ο ι)
    (h : ∀ kv ∈ b.infos, kv.2.length ≤ b.n_obs + 1) :
    ∀ kv ∈ (b.add_info info).infos, kv.2.length ≤ b.n_obs + 1 := by
  induction info generalizing b with
  | nil => exact h
  | cons kv rest ih =>
    intro kv' hkv'
    have hn := (addInfoField_proj b kv.1 kv.2).1
    have := ih (b.addInfoField kv.1 kv.2)
      (by rw [hn]; exact addInfoField_bound b kv.1 kv.2 h)
    rw [hn] at this
    exact this kv' hkv'

/-- One inner step preserves the buffer invariant, provided the loop was
allowed to run it (the last recorded done flag is not `true`). -/
theorem bufStep_wf {ο ι : Type} (b : StepBuffers ο ι) (p : EnvStep ο ι)
    (h : BufWF b) (hnl : ¬ b.dones.getLast? = some true) : BufWF (bufStep b p) := by
  obtain ⟨h1, h2, h3, h4⟩ := h
  have hproj := add_info_proj p.info
    (((b.add_obs p.obs).add_reward p.rew).add_done (p.terminated || p.truncated))
  unfold bufStep BufWF
  rw [hproj.1, hproj.2.1, hproj.2.2.1, hproj.2.2.2]
  simp only [StepBuffers.add_done, StepBuffers.add_reward, StepBuffers.add_obs]
  refine ⟨dequeAppend_length_le _ _ _, ?_, by simp [h3], ?_⟩
  · intro kv hkv
    have := add_info_bound p.info
      (((b.add_obs p.obs).add_reward p.rew).add_done (p.terminated || p.truncated))
      (by simpa [StepBuffers.add_done, StepBuffers.add_reward, StepBuffers.add_obs] using h2)
    simp only [StepBuffers.add_done, StepBuffers.add_reward, StepBuffers.add_obs] at this
    exact this kv hkv
  · intro htrue
    rcases List.mem_append.1 htrue with hmem | hmem
    · exact absurd (h4 hmem) hnl
    · simp only [List.mem_singleton] at hmem
      simp [List.getLast?_concat, ← hmem]

/-- `bufStep` leaves `n_obs` unchanged and appends exactly one reward and one
done flag. -/
theorem bufStep_proj {ο ι : Type} (b : StepBuffers ο ι) (p : EnvStep ο ι) :
    (bufStep b p).n_obs = b.n_obs ∧
    (bufStep b p).rewards = b.rewards ++ [p.rew] ∧
    (bufStep b p).dones = b.dones ++ [p.terminated || p.truncated] := by
  have hproj := add_info_proj p.info
    (((b.add_obs p.obs).add_reward p.rew).add_done (p.terminated || p.truncated))
  unfold bufStep
  rw [hproj.1, hproj.2.2.1, hproj.2.2.2]
  exact ⟨rfl, rfl, rfl⟩

/-- A buffer whose last done flag is `true` makes the inner loop stop before
its first environment call: state, buffer, and call count are untouched. -/
theorem innerLoop_latched {σ α ο ι : Type} (env : Env σ α ο ι) (s : σ)
    (b : StepBuffers ο ι) (acts : List α) (h : b.dones.getLast? = some true) :
    innerLoop env s b acts = (s, b, 0) := by
  cases acts with
  | nil => rfl
  | cons a rest => simp [innerLoop, h]

/-- The inner loop keeps `n_obs`, only appends to `rewards` and `dones` (one
entry each per environment call), and calls the environment at most once per
action. -/
theorem innerLoop_proj {σ α ο ι : Type} (env : Env σ α ο ι) (acts : List α)
    (s : σ) (b : StepBuffers ο ι) :
    (innerLoop env s b acts).2.1.n_obs = b.n_obs ∧
    (∃ tr td, (innerLoop env s b acts).2.1.rewards = b.rewards ++ tr ∧
      (innerLoop env s b acts).2.1.dones = b.dones ++ td ∧
      tr.length = (innerLoop env s b acts).2.2 ∧
      td.length = (innerLoop env s b acts).2.2) ∧
    (innerLoop env s b acts).2.2 ≤ acts.length := by
  induction acts generalizing s b with
  | nil => exact ⟨rfl, ⟨[], [], by simp [innerLoop], by simp [innerLoop], rfl, rfl⟩,
      by simp [innerLoop]⟩
  | cons a rest ih =>
    by_cases h : b.dones.getLast? = some true
    · rw [innerLoop_latched env s b _ h]
      exact ⟨rfl, ⟨[], [], by simp, by simp, rfl, rfl⟩, by simp⟩
    · have hbp := bufStep_proj b (env.step s a).2
      obtain ⟨ihn, ⟨tr, td, htr, htd, hltr, hltd⟩, ihle⟩ :=
        ih (env.step s a).1 (bufStep b (env.step s a).2)
      simp only [innerLoop, if_neg h]
      refine ⟨ihn.trans hbp.1, ⟨(env.step s a).2.rew :: tr,
        ((env.step s a).2.terminated || (env.step s a).2.truncated) :: td, ?_, ?_, ?_, ?_⟩, ?_⟩
      · rw [htr, hbp.2.1]; simp
      · rw [htd, hbp.2.2]; simp
      · simpa using hltr
      · simpa using hltd
      · simpa using Nat.add_le_add_right ihle 1

/-- The inner loop preserves the buffer invariant. -/
theorem innerLoop_wf {σ α ο ι : Type} (env : Env σ α ο ι) (acts : List α)
    (s : σ) (b : StepBuffers ο ι) (h : BufWF b) :
    BufWF (innerLoop env s b acts).2.1 := by
  induction acts generalizing s b with
  | nil => exact h
  | cons a rest ih =>
    by_cases hl : b.dones.getLast? = some true
    · rw [innerLoop_latched env s b _ hl]; exact h
    · simp only [innerLoop, if_neg hl]
      exact ih _ _ (bufStep_wf b (env.step s a).2 h hl)

/-- Under an environment that never signals termination, the inner loop runs
one environment call per action, appends one reward per action, and records
only `false` done flags. -/
theorem innerLoop_noterm {σ α ο ι : Type} (env : Env σ α ο ι)
    (hterm : ∀ s a, (env.step s a).2.terminated = false ∧ (env.step s a).2.truncated = false)
    (acts : List α) (s : σ) (b : StepBuffers ο ι)
    (hfalse : ∀ d ∈ b.dones, d = false) :
    (innerLoop env s b acts).2.2 = acts.length ∧
    (∀ d ∈ (innerLoop env s b acts).2.1.dones, d = false) ∧
    (innerLoop env s b acts).2.1.rewards.length = b.rewards.length + acts.length := by
  induction acts generalizing s b with
  | nil => exact ⟨rfl, hfalse, by simp [innerLoop]⟩
  | cons a rest ih =>
    have hl : ¬ b.dones.getLast? = some true := by
      intro hcontra
      exact absurd (hfalse true (List.mem_of_mem_getLast? hcontra)) (by simp)
    have hbp := bufStep_proj b (env.step s a).2
    have hfalse' : ∀ d ∈ (bufStep b (env.step s a).2).dones, d = false := by
      rw [hbp.2.2]
      intro d hd
      rcases List.mem_append.1 hd with hd | hd
      · exact hfalse d hd
      · simp only [List.mem_singleton] at hd
        simp [hd, (hterm s a).1, (hterm s a).2]
    obtain ⟨ih1, ih2, ih3⟩ := ih (env.step s a).1 (bufStep b (env.step s a).2) hfalse'
    simp only [innerLoop, if_neg hl]
    refine ⟨by simpa using ih1, ih2, ?_⟩
    rw [ih3, hbp.2.1]
    simp [Nat.add_comm, Nat.add_assoc, Nat.add_left_comm]

/-- Projections of a `step` call: final state, buffer, and call count come
from the inner loop when the action count matches, and nothing happens
otherwise. -/
theorem step_proj {σ α ο ι : Type} (env : Env σ α ο ι) (cfg : Cfg) (s : σ)
    (b : StepBuffers ο ι) (a : List α) :
    (MultiStep.step env cfg s b a).buf =
      (if a.length = cfg.n_action then (innerLoop env s b a).2.1 else b) ∧
    (MultiStep.step env cfg s b a).s =
      (if a.length = cfg.n_action then (innerLoop env s b a).1 else s) ∧
    (MultiStep.step env cfg s b a).envCalls =
      (if a.length = cfg.n_action then (innerLoop env s b a).2.2 else 0) := by
  by_cases h : a.length = cfg.n_action
  · simp only [MultiStep.step, if_pos h]
    cases hred : (innerLoop env s b a).2.1.reduce cfg.reward_reduce with
    | error e => simp [hred]
    | ok rd => simp [hred]
  · simp [MultiStep.step, if_neg h]

/-- Every reachable wrapper state has a buffer built for the configured
window size that satisfies the buffer invariant. -/
theorem reachable_wf {σ α ο ι : Type} (env : Env σ α ο ι) (cfg : Cfg)
    (st : σ × StepBuffers ο ι) (h : Reachable env cfg st) :
    st.2.n_obs = cfg.n_obs ∧ BufWF st.2 := by
  induction h with
  | init s => exact ⟨rfl, by simp [BufWF, StepBuffers.new]⟩
  | reset _ _ =>
    refine ⟨rfl, ?_, ?_, rfl, ?_⟩
    · simpa [MultiStep.reset, StepBuffers.add_obs, StepBuffers.new] using
        dequeAppend_length_le (cfg.n_obs + 1) ([] : List ο) _
    · intro kv hkv
      simp [resetTrans, MultiStep.reset, StepBuffers.add_obs, StepBuffers.new] at hkv
    · intro hmem
      simp [resetTrans, MultiStep.reset, StepBuffers.add_obs, StepBuffers.new] at hmem
  | @step st a _ ih =>
    obtain ⟨ihn, ihwf⟩ := ih
    have hproj := step_proj env cfg st.1 st.2 a
    have hbuf : (stepTrans env cfg a st).2 = (MultiStep.step env cfg st.1 st.2 a).buf := rfl
    constructor
    · rw [hbuf, hproj.1]
      split
      · rw [(innerLoop_proj env a st.1 st.2).1]; exact ihn
      · exact ihn
    · rw [hbuf, hproj.1]
      split
      · exact innerLoop_wf env a st.1 st.2 ihwf
      · exact ihwf

/-- Under an environment that never signals termination, every reachable
buffer records only `false` done flags. -/
theorem reachable_noterm {σ α ο ι : Type} (env : Env σ α ο ι) (cfg : Cfg)
    (hterm : ∀ s a, (env.step s a).2.terminated = false ∧ (env.step s a).2.truncated = false)
    (st : σ × StepBuffers ο ι) (h : Reachable env cfg st) :
    ∀ d ∈ st.2.dones, d = false := by
  induction h with
  | init s => intro d hd; simp [StepBuffers.new] at hd
  | reset _ _ =>
    intro d hd
    simp [resetTrans, MultiStep.reset, StepBuffers.add_obs, StepBuffers.new] at hd
  | @step st a _ ih =>
    have hproj := step_proj env cfg st.1 st.2 a
    have hbuf : (stepTrans env cfg a st).2 = (MultiStep.step env cfg st.1 st.2 a).buf := rfl
    intro d hd
    rw [hbuf, hproj.1] at hd
    by_cases hlen : a.length = cfg.n_action
    · rw [if_pos hlen] at hd
      exact (innerLoop_noterm env hterm a st.1 st.2 ih).2.1 d hd
    · rw [if_neg hlen] at hd
      exact ih d hd

/-- `np.repeat(a[None, ...], n, axis=0)` on a well-formed array: the shape
gains a leading `n` and the flattened data is the original data repeated `n`
times. -/
theorem repeat0_unsqueeze0 (a : NdArray) (n : Nat)
    (hlen : a.data.length = a.shape.prod) :
    (a.unsqueeze0.repeat0 n).shape = n :: a.shape ∧
    (a.unsqueeze0.repeat0 n).data = (List.replicate n a.data).flatten := by
  unfold NdArray.unsqueeze0 NdArray.repeat0
  have hr1 : List.range 1 = [0] := rfl
  simp only [hr1, List.map_cons, List.map_nil, Nat.zero_mul,
    List.drop_zero, List.flatten_cons, List.flatten_nil, List.append_nil]
  constructor
  · simp [Nat.one_mul]
  · rw [← hlen, List.take_length]

/-- When the action count matches and `reduce` succeeds with `(r, dn)`, the
step call reports `(r, dn-adjusted-by-the-ceiling)` and its `return`
expression raises `TypeError` in `_stack_obs`. -/
theorem step_reduced_ok {σ α ο ι : Type} (env : Env σ α ο ι) (cfg : Cfg) (s : σ)
    (b : StepBuffers ο ι) (acts : List α) (r : ℚ) (dn : Bool)
    (hlen : acts.length = cfg.n_action)
    (hred : (innerLoop env s b acts).2.1.reduce cfg.reward_reduce = Except.ok (r, dn)) :
    (MultiStep.step env cfg s b acts).reduced = Except.ok (r,
      match cfg.max_ep with
      | some m => if 0 < m ∧ m ≤ (innerLoop env s b acts).2.1.rewards.length then true else dn
      | none => dn) ∧
    (MultiStep.step env cfg s b acts).ret = Except.error PyErr.typeError := by
  simp [MultiStep.step, if_pos hlen, hred, MultiStep.stack_obs, Except.bind]

/-! ## The claims -/

/-- Claim C4: `stack_last` matches its reference definition.  For every
non-empty history `h` (all of whose frames share one shape and dtype — here
frames are abstract, and every output frame is drawn from `h`, so shape and
dtype are preserved) and every `n ≥ 1`: the result exists and has exactly
`n` frames along the new leading axis; if `len(h) ≥ n` it is exactly the
last `n` elements of `h` oldest-to-newest; if `len(h) < n` the first
`n - len(h)` frames all equal `h[0]` and the remaining frames equal `h` in
order. -/
theorem c4_stack_last_spec {α : Type} (h : List α) (n : Nat) (hne : h ≠ [])
    (hn : 1 ≤ n) :
    ∃ r, stack_last h n = some r ∧ r.length = n ∧ (∀ x ∈ r, x ∈ h) ∧
      (n ≤ h.length → r = h.drop (h.length - n)) ∧
      (h.length < n → r = List.replicate (n - h.length) (h.head hne) ++ h) := by
  have hlh : 0 < h.length := List.length_pos.2 hne
  have hcorelen : (h.drop (h.length - n)).length = h.length - (h.length - n) :=
    List.length_drop _ _
  have hcne : h.drop (h.length - n) ≠ [] := by
    intro hc
    rw [hc] at hcorelen
    simp only [List.length_nil] at hcorelen
    omega
  obtain ⟨c, cs, hcs⟩ := List.exists_cons_of_ne_nil hcne
  have hn0 : ¬ n = 0 := by omega
  have hcl : (c :: cs).length = h.length - (h.length - n) := by
    rw [← hcs]; exact hcorelen
  refine ⟨List.replicate (n - h.length) c ++ c :: cs, ?_, ?_, ?_, ?_, ?_⟩
  · unfold stack_last
    rw [if_neg hn0, hcs]
  · simp only [List.length_append, List.length_replicate, hcl]
    omega
  · intro x hx
    have hcmem : ∀ y ∈ c :: cs, y ∈ h := by
      intro y hy
      exact List.mem_of_mem_drop (hcs ▸ hy)
    rcases List.mem_append.1 hx with hx | hx
    · rw [List.eq_of_mem_replicate hx]
      exact hcmem c (List.mem_cons_self _ _)
    · exact hcmem x hx
  · intro hle
    have : n - h.length = 0 := by omega
    rw [this, List.replicate_zero, List.nil_append, hcs]
  · intro hlt
    have hdz : h.length - n = 0 := by omega
    rw [hdz, List.drop_zero] at hcs
    subst hcs
    rfl

/-- Witness for C4: the history `[A, B]` stacked to `n = 4` frames is
`[A, A, A, B]` (left-padded with the oldest available frame). -/
theorem c4_witness : stack_last [1, 2] 4 = some [1, 1, 1, 2] := by
  obtain ⟨r, hr, -, -, -, hpad⟩ :=
    c4_stack_last_spec ([1, 2] : List ℕ) 4 (by decide) (by decide)
  rw [hr, hpad (by decide)]
  rfl

/-- Claim C5: on a non-empty rewards list, a parallel dones list, and any of
the four supported modes, `reduce` returns the pair of the chosen reduction
of the full rewards list and the logical OR of the dones list. -/
theorem c5_reduce_modes {ο ι : Type} (b : StepBuffers ο ι) (agg : String)
    (hne : b.rewards ≠ []) (hpar : b.dones.length = b.rewards.length)
    (hagg : validAgg agg) :
    ∃ r, b.reduce agg = Except.ok (r, b.dones.any id) ∧ aggProp agg b.rewards r := by
  have hd : b.dones ≠ [] := by
    intro hc
    apply hne
    have hzero : b.rewards.length = 0 := by rw [← hpar, hc]; rfl
    exact List.eq_nil_of_length_eq_zero hzero
  exact reduce_ok b agg hagg hne hd

/-- Witness for C5, at the two examples from the spec:
`reduce([1.0, 3.0, 2.0], [False, False, True], "max") = (3.0, True)` and
`reduce([1.0, 3.0, 2.0], [False, False, False], "sum") = (6.0, False)`. -/
theorem c5_witness :
    bMax.reduce "max" = Except.ok (3, true) ∧
    bSum.reduce "sum" = Except.ok (6, false) ∧
    (∃ r, bMax.reduce "max" = Except.ok (r, bMax.dones.any id) ∧
      aggProp "max" bMax.rewards r) := by
  refine ⟨rfl, ?_, c5_reduce_modes bMax "max" (by decide) (by decide) (Or.inl rfl)⟩
  show Except.ok (npSum bSum.rewards, false) = Except.ok (6, false)
  rw [npSum_eq]
  norm_num [bSum]

/-- Claim C6: stacking a Leaf space yields a Leaf of shape `(n,) + shape`,
with both bound arrays repeated `n` times along the new leading axis, and
with the dtype forced to `uint8` regardless of the input dtype. -/
theorem c6_repeated_box_spec (b : Box) (n : Nat) (hn : 1 ≤ n)
    (hl : b.low.data.length = b.low.shape.prod)
    (hh : b.high.data.length = b.high.shape.prod) :
    repeated_space (Space.box b) n = Except.ok (Space.box (repeated_box b n)) ∧
    (repeated_box b n).low.shape = n :: b.low.shape ∧
    (repeated_box b n).high.shape = n :: b.high.shape ∧
    (repeated_box b n).low.data = (List.replicate n b.low.data).flatten ∧
    (repeated_box b n).high.data = (List.replicate n b.high.data).flatten ∧
    (repeated_box b n).dtype = Dtype.uint8 := by
  obtain ⟨hsl, hdl⟩ := repeat0_unsqueeze0 b.low n hl
  obtain ⟨hsh, hdh⟩ := repeat0_unsqueeze0 b.high n hh
  exact ⟨rfl, hsl, hsh, hdl, hdh, rfl⟩

/-- Witness for C6: a Leaf of shape `(3,)` stacked with `n = 4` is a Leaf of
shape `(4, 3)` whose bounds are the input bounds repeated 4 times. -/
theorem c6_witness :
    (repeated_box box3 4).low.shape = [4, 3] ∧
    (repeated_box box3 4).low.data = [0, 0, 0, 0, 0, 0, 0, 0, 0, 0, 0, 0] ∧
    (repeated_box box3 4).dtype = Dtype.uint8 := by
  obtain ⟨-, hsl, -, hdl, -, hdt⟩ := c6_repeated_box_spec box3 4 (by decide) rfl rfl
  exact ⟨hsl.trans rfl, hdl.trans rfl, hdt⟩

/-- Claim C8: a `step` call whose action sequence length differs from
`n_action` fails the `assert` at wrapper.py 124 (the spec's
`ActionCountMismatch`) before any environment interaction: zero inner calls,
buffer and environment state untouched, no partial execution. -/
theorem c8_action_count_guard {σ α ο ι : Type} (env : Env σ α ο ι) (cfg : Cfg)
    (s : σ) (b : StepBuffers ο ι) (action : List α)
    (h : action.length ≠ cfg.n_action) :
    (MultiStep.step env cfg s b action).envCalls = 0 ∧
    (MultiStep.step env cfg s b action).buf = b ∧
    (MultiStep.step env cfg s b action).s = s ∧
    (MultiStep.step env cfg s b action).reduced = Except.error PyErr.assertionError ∧
    (MultiStep.step env cfg s b action).ret = Except.error PyErr.assertionError := by
  simp [MultiStep.step, h]

/-- Witness for C8: a macro-step with 0 actions against `n_action = 1`. -/
theorem c8_witness :
    (MultiStep.step envNoTerm cfgC1 () (StepBuffers.new cfgC1.n_obs) []).envCalls = 0 ∧
    (MultiStep.step envNoTerm cfgC1 () (StepBuffers.new cfgC1.n_obs) []).buf =
      StepBuffers.new cfgC1.n_obs ∧
    (MultiStep.step envNoTerm cfgC1 () (StepBuffers.new cfgC1.n_obs) []).s = () ∧
    (MultiStep.step envNoTerm cfgC1 () (StepBuffers.new cfgC1.n_obs) []).reduced =
      Except.error PyErr.assertionError ∧
    (MultiStep.step envNoTerm cfgC1 () (StepBuffers.new cfgC1.n_obs) []).ret =
      Except.error PyErr.assertionError :=
  c8_action_count_guard envNoTerm cfgC1 () (StepBuffers.new cfgC1.n_obs) [] (by decide)

/-- Claim C2 (the code violates it): the `action_space` property evaluates
the undefined name `self_act_space` and raises `NameError` on every read,
instead of returning the stored `n_action`-stacked transform — which
`__init__` does compute and store in `self._act_space` (second conjunct). -/
theorem c2_action_space_raises :
    (∀ sp : MultiStepSpaces, MultiStep.action_space sp = Except.error PyErr.nameError) ∧
    (∀ (eo ea : Space) (n m : Nat) (sp : MultiStepSpaces),
      mkSpaces eo ea n m = Except.ok sp → repeated_space ea m = Except.ok sp.act_space) := by
  refine ⟨fun _ => rfl, fun eo ea n m sp h => ?_⟩
  unfold mkSpaces at h
  cases ho : repeated_space eo n with
  | error e => rw [ho] at h; exact absurd h (by simp)
  | ok o =>
    rw [ho] at h
    cases ha : repeated_space ea m with
    | error e => rw [ha] at h; exact absurd h (by simp)
    | ok a =>
      rw [ha] at h
      have hsp := Except.ok.inj h
      rw [← hsp]

/-- Witness for C2: a wrapper built over the `(3,)` Leaf space with
`n_obs = 4`, `n_action = 2`. -/
theorem c2_witness :
    MultiStep.action_space spC2 = Except.error PyErr.nameError ∧
    repeated_space (Space.box box3) 2 = Except.ok spC2.act_space :=
  ⟨c2_action_space_raises.1 spC2,
    c2_action_space_raises.2 (Space.box box3) (Space.box box3) 4 2 spC2 rfl⟩

/-- Claim C9: after every sequence of reset and macro-step operations, the
observation window holds at most `n_obs + 1` frames, every info-field window
holds at most `n_obs + 1` values, and the rewards and dones lists have equal
length. -/
theorem c9_buffer_bounds {σ α ο ι : Type} (env : Env σ α ο ι) (cfg : Cfg)
    (st : σ × StepBuffers ο ι) (h : Reachable env cfg st) :
    st.2.obs.length ≤ cfg.n_obs + 1 ∧
    (∀ kv ∈ st.2.infos, kv.2.length ≤ cfg.n_obs + 1) ∧
    st.2.rewards.length = st.2.dones.length := by
  obtain ⟨hn, hwf⟩ := reachable_wf env cfg st h
  unfold BufWF at hwf
  obtain ⟨h1, h2, h3, -⟩ := hwf
  rw [hn] at h1 h2
  exact ⟨h1, h2, h3⟩

/-- Witness for C9: the state after a reset and one macro-step. -/
theorem c9_witness :
    stC9.2.obs.length ≤ cfgC1.n_obs + 1 ∧
    (∀ kv ∈ stC9.2.infos, kv.2.length ≤ cfgC1.n_obs + 1) ∧
    stC9.2.rewards.length = stC9.2.dones.length :=
  c9_buffer_bounds envNoTerm cfgC1 stC9
    (Reachable.step [()] (Reachable.reset (Reachable.init ())))

/-- Claim C7: with `n_action = 3` and an environment terminating on its first
inner step, a fresh macro-step performs exactly one environment call and
leaves one recorded reward; and in general a buffer that has recorded a true
termination flag (necessarily its last one) makes the inner loop execute
zero further inner steps. -/
theorem c7_early_termination :
    ((MultiStep.step envTermFirst cfgC7 (MultiStep.reset envTermFirst cfgC7 ()).s
        (MultiStep.reset envTermFirst cfgC7 ()).buf [(), (), ()]).envCalls = 1 ∧
      (MultiStep.step envTermFirst cfgC7 (MultiStep.reset envTermFirst cfgC7 ()).s
        (MultiStep.reset envTermFirst cfgC7 ()).buf [(), (), ()]).buf.rewards.length = 1) ∧
    (∀ (σ α ο ι : Type) (env : Env σ α ο ι) (s : σ) (b : StepBuffers ο ι)
      (acts : List α), b.dones.getLast? = some true → innerLoop env s b acts = (s, b, 0)) :=
  ⟨⟨rfl, rfl⟩, fun _ _ _ _ env s b acts hlast => innerLoop_latched env s b acts hlast⟩

/-- Witness for C7's general early-exit part, at a latched one-reward buffer. -/
theorem c7_witness : innerLoop envTermFirst () bLatched [()] = ((), bLatched, 0) :=
  c7_early_termination.2 Unit Unit Unit Unit envTermFirst () bLatched [()] rfl

/-- Claim C10 (done latch; the computed flag behaves as claimed but the call
raises before returning it): in every reachable state whose buffer has
recorded a true termination flag, a macro-step with the right action count
performs zero environment calls, leaves state and buffer untouched, computes
`done = true` (the OR over the never-cleared dones), and then raises
`TypeError` in `_stack_obs` instead of returning. -/
theorem c10_done_latch {σ α ο ι : Type} (env : Env σ α ο ι) (cfg : Cfg) (s : σ)
    (b : StepBuffers ο ι) (acts : List α)
    (hreach : Reachable env cfg (s, b)) (hdone : true ∈ b.dones)
    (hlen : acts.length = cfg.n_action) (hagg : validAgg cfg.reward_reduce) :
    (MultiStep.step env cfg s b acts).envCalls = 0 ∧
    (MultiStep.step env cfg s b acts).s = s ∧
    (MultiStep.step env cfg s b acts).buf = b ∧
    (∃ r, (MultiStep.step env cfg s b acts).reduced = Except.ok (r, true)) ∧
    (MultiStep.step env cfg s b acts).ret = Except.error PyErr.typeError := by
  have hwf : BufWF b := (reachable_wf env cfg (s, b) hreach).2
  have hpar := hwf.2.2.1
  have hlast := hwf.2.2.2 hdone
  have hloop := innerLoop_latched env s b acts hlast
  have hd : b.dones ≠ [] := by
    intro hc
    rw [hc] at hdone
    simp at hdone
  have hne : b.rewards ≠ [] := by
    intro hc
    apply hd
    apply List.eq_nil_of_length_eq_zero
    have h0 : b.rewards.length = 0 := by rw [hc]; rfl
    omega
  obtain ⟨r, hred, -⟩ := reduce_ok b cfg.reward_reduce hagg hne hd
  have hany : b.dones.any id = true := List.any_eq_true.2 ⟨true, hdone, rfl⟩
  rw [hany] at hred
  have hred' : (innerLoop env s b acts).2.1.reduce cfg.reward_reduce =
      Except.ok (r, true) := by
    rw [hloop]
    exact hred
  have hproj := step_proj env cfg s b acts
  obtain ⟨hrd, hret⟩ := step_reduced_ok env cfg s b acts r true hlen hred'
  refine ⟨?_, ?_, ?_, ⟨r, ?_⟩, hret⟩
  · rw [hproj.2.2, if_pos hlen, hloop]
  · rw [hproj.2.1, if_pos hlen, hloop]
  · rw [hproj.1, if_pos hlen, hloop]
  · rw [hrd]
    cases cfg.max_ep with
    | none => rfl
    | some m => simp

/-- Witness for C10: after reset and one terminating macro-step, another
macro-step call. -/
theorem c10_witness :
    (MultiStep.step envTermFirst cfgC1 stL.1 stL.2 [()]).envCalls = 0 ∧
    (MultiStep.step envTermFirst cfgC1 stL.1 stL.2 [()]).s = stL.1 ∧
    (MultiStep.step envTermFirst cfgC1 stL.1 stL.2 [()]).buf = stL.2 ∧
    (∃ r, (MultiStep.step envTermFirst cfgC1 stL.1 stL.2 [()]).reduced =
      Except.ok (r, true)) ∧
    (MultiStep.step envTermFirst cfgC1 stL.1 stL.2 [()]).ret =
      Except.error PyErr.typeError :=
  c10_done_latch envTermFirst cfgC1 stL.1 stL.2 [()]
    (Reachable.step [()] (Reachable.reset (Reachable.init ()))) (by decide) rfl
    (Or.inl rfl)

/-- Claim C3 (the computed flag follows the claimed rule but the call raises
before returning it): with `max_episode_steps = k > 0` and a never-terminating
environment, a macro-step from any reachable state runs all its inner steps,
and the done flag it computes is true exactly when the cumulative number of
inner-step rewards since the last reset (the buffer accumulates across
macro-steps) reaches `k`; the call then raises `TypeError` in `_stack_obs`. -/
theorem c3_episode_ceiling {σ α ο ι : Type} (env : Env σ α ο ι) (cfg : Cfg)
    (k : Nat) (s : σ) (b : StepBuffers ο ι) (acts : List α)
    (hterm : ∀ s' a, (env.step s' a).2.terminated = false ∧
      (env.step s' a).2.truncated = false)
    (hk : cfg.max_ep = some k) (hkpos : 0 < k)
    (hreach : Reachable env cfg (s, b))
    (hlen : acts.length = cfg.n_action) (hact : 0 < cfg.n_action)
    (hagg : validAgg cfg.reward_reduce) :
    (MultiStep.step env cfg s b acts).buf.rewards.length =
      b.rewards.length + acts.length ∧
    (MultiStep.step env cfg s b acts).envCalls = acts.length ∧
    (∃ r, (MultiStep.step env cfg s b acts).reduced =
      Except.ok (r, decide (k ≤ b.rewards.length + acts.length))) ∧
    (MultiStep.step env cfg s b acts).ret = Except.error PyErr.typeError := by
  have hfalse := reachable_noterm env cfg hterm (s, b) hreach
  obtain ⟨hcnt, hfalse2, hrlen⟩ := innerLoop_noterm env hterm acts s b hfalse
  have hwf := (reachable_wf env cfg (s, b) hreach).2
  have hwf2 := innerLoop_wf env acts s b hwf
  unfold BufWF at hwf2
  obtain ⟨-, -, hpar2, -⟩ := hwf2
  have hlenpos : 0 < (innerLoop env s b acts).2.1.rewards.length := by
    rw [hrlen, hlen]
    omega
  have hne2 : (innerLoop env s b acts).2.1.rewards ≠ [] :=
    List.ne_nil_of_length_pos hlenpos
  have hd2 : (innerLoop env s b acts).2.1.dones ≠ [] := by
    apply List.ne_nil_of_length_pos
    omega
  obtain ⟨r, hred, -⟩ := reduce_ok _ cfg.reward_reduce hagg hne2 hd2
  have hanyf : (innerLoop env s b acts).2.1.dones.any id = false := by
    simp only [List.any_eq_false]
    intro x hx
    simp [hfalse2 x hx]
  rw [hanyf] at hred
  obtain ⟨hrd, hret⟩ := step_reduced_ok env cfg s b acts r false hlen hred
  have hproj := step_proj env cfg s b acts
  refine ⟨?_, ?_, ⟨r, ?_⟩, hret⟩
  · rw [hproj.1, if_pos hlen, hrlen]
  · rw [hproj.2.2, if_pos hlen, hcnt]
  · rw [hrd, hk, hrlen]
    by_cases hc : k ≤ b.rewards.length + acts.length
    · simp [hc, hkpos]
    · simp [hc]

/-- Witness for C3: the first macro-step after reset under
`max_episode_steps = 5` and a never-terminating environment. -/
theorem c3_witness :
    (MultiStep.step envNoTerm cfgC3 stR3.1 stR3.2 [()]).buf.rewards.length =
      stR3.2.rewards.length + 1 ∧
    (MultiStep.step envNoTerm cfgC3 stR3.1 stR3.2 [()]).envCalls = 1 ∧
    (∃ r, (MultiStep.step envNoTerm cfgC3 stR3.1 stR3.2 [()]).reduced =
      Except.ok (r, decide (5 ≤ stR3.2.rewards.length + 1))) ∧
    (MultiStep.step envNoTerm cfgC3 stR3.1 stR3.2 [()]).ret =
      Except.error PyErr.typeError :=
  c3_episode_ceiling envNoTerm cfgC3 5 stR3.1 stR3.2 [()] (fun _ _ => ⟨rfl, rfl⟩)
    rfl (by decide) (Reachable.reset (Reachable.init ())) rfl (by decide)
    (Or.inl rfl)

/-- Counterexample to claim C1 as stated: the rewards list is NOT cleared at
the start of a macro-step.  After reset, a first macro-step collecting reward
5 and a second macro-step collecting reward 1, the buffer holds `[5, 1]` and
the second call's aggregate under `max` is computed as 5 — whereas the `max`
reduction over only that macro-step's rewards `[1]` is 1, and 5 ≠ 1.  (The
call also raises `TypeError` in `_stack_obs` before returning the value.) -/
theorem c1_counterexample :
    o2.buf.rewards = [5, 1] ∧
    o2.reduced = Except.ok (5, false) ∧
    npMax [1] = some 1 ∧
    (5 : ℚ) ≠ 1 ∧
    o2.ret = Except.error PyErr.typeError :=
  ⟨rfl, rfl, rfl, by norm_num, rfl⟩

/-- Claim C1 as amended: within an episode the rewards list only grows (it is
cleared only by `reset`), and the scalar a macro-step computes in `reduce` is
the chosen reduction applied to ALL inner-step rewards accumulated since the
last reset — not just those of the current macro-step. -/
theorem c1_rewards_accumulate {σ α ο ι : Type} (env : Env σ α ο ι) (cfg : Cfg)
    (s : σ) (b : StepBuffers ο ι) (acts : List α)
    (hreach : Reachable env cfg (s, b)) (hlen : acts.length = cfg.n_action)
    (hact : 0 < cfg.n_action) (hagg : validAgg cfg.reward_reduce) :
    (∃ t, (MultiStep.step env cfg s b acts).buf.rewards = b.rewards ++ t) ∧
    (∃ r d, (MultiStep.step env cfg s b acts).reduced = Except.ok (r, d) ∧
      aggProp cfg.reward_reduce (MultiStep.step env cfg s b acts).buf.rewards r) := by
  have hwf : BufWF b := (reachable_wf env cfg (s, b) hreach).2
  have hbufeq : (MultiStep.step env cfg s b acts).buf = (innerLoop env s b acts).2.1 := by
    rw [(step_proj env cfg s b acts).1, if_pos hlen]
  obtain ⟨-, ⟨tr, td, htr, htd, hltr, hltd⟩, -⟩ := innerLoop_proj env acts s b
  have hne2 : (innerLoop env s b acts).2.1.rewards ≠ [] := by
    by_cases hl : b.dones.getLast? = some true
    · rw [innerLoop_latched env s b acts hl]
      show b.rewards ≠ []
      intro hc
      have hd : b.dones ≠ [] := by
        intro hc2
        rw [hc2] at hl
        simp at hl
      apply hd
      apply List.eq_nil_of_length_eq_zero
      have h0 : b.rewards.length = 0 := by rw [hc]; rfl
      have hpar := hwf.2.2.1
      omega
    · have hanil : acts ≠ [] := by
        apply List.ne_nil_of_length_pos
        omega
      obtain ⟨a, rest, rfl⟩ := List.exists_cons_of_ne_nil hanil
      have hcount : 0 < (innerLoop env s b (a :: rest)).2.2 := by
        simp only [innerLoop, if_neg hl]
        omega
      apply List.ne_nil_of_length_pos
      rw [htr, List.length_append, hltr]
      omega
  have hwf2 : BufWF (innerLoop env s b acts).2.1 := innerLoop_wf env acts s b hwf
  have hd2 : (innerLoop env s b acts).2.1.dones ≠ [] := by
    apply List.ne_nil_of_length_pos
    have hpar2 := hwf2.2.2.1
    have hpos := List.length_pos.2 hne2
    omega
  obtain ⟨r, hred, hprop⟩ := reduce_ok _ cfg.reward_reduce hagg hne2 hd2
  obtain ⟨hrd, -⟩ := step_reduced_ok env cfg s b acts r _ hlen hred
  refine ⟨⟨tr, by rw [hbufeq, htr]⟩, ⟨r, _, hrd, ?_⟩⟩
  rw [hbufeq]
  exact hprop

/-- Witness for the amended C1: the first macro-step after a reset. -/
theorem c1_witness :
    (∃ t, (MultiStep.step envNoTerm cfgC1 stR1.1 stR1.2 [()]).buf.rewards =
      stR1.2.rewards ++ t) ∧
    (∃ r d, (MultiStep.step envNoTerm cfgC1 stR1.1 stR1.2 [()]).reduced =
      Except.ok (r, d) ∧
      aggProp cfgC1.reward_reduce
        (MultiStep.step envNoTerm cfgC1 stR1.1 stR1.2 [()]).buf.rewards r) :=
  c1_rewards_accumulate envNoTerm cfgC1 stR1.1 stR1.2 [()]
    (Reachable.reset (Reachable.init ())) rfl (by decide) (Or.inl rfl)

end Multistep
